import Mathlib

/-!
Verification development for `t2i_adapters/adapters.py`.

The file embeds the module shallowly in Lean 4:

* a shape-level semantics of the tensor operations the module composes
  (`nn.Conv2d`, `nn.AvgPool2d`, `nn.PixelUnshuffle`, the `Downsample`
  wrapper, `ResnetBlock.forward`, `Adapter.extract_patch`), where a
  shape is the tuple `(N, C, H, W)` and an operation that would raise
  at run time returns `none`;
* a value-level semantics of `nn.PixelUnshuffle` and of `Adapter.forward`
  over concrete integer-valued tensors;
* an abstract-layer embedding of `ResnetBlock.__init__` / `forward`
  where the individual convolution layers are opaque functions, used to
  settle the structural decomposition of the residual computation;
* a state-passing model of `patch_pipe` and `Adapter.from_pretrained`,
  with the external collaborators (torch state-dict loading, device and
  dtype moves, the companion U-Net constructor) modelled by their
  documented semantics.
-/

/-- A 4-D tensor shape `(N, C, H, W)`. -/
structure Shape4 where
  n : ℕ
  c : ℕ
  h : ℕ
  w : ℕ
deriving DecidableEq, Repr

instance : Inhabited Shape4 := ⟨⟨0, 0, 0, 0⟩⟩

/-- Output extent of a convolution along one spatial axis:
`floor((h + 2p - k) / s) + 1`. -/
def convOutDim (h k s p : ℕ) : ℕ :=
  (h + 2 * p - k) / s + 1

/-- Shape semantics of `nn.Conv2d(in_c, out_c, k, stride=s, padding=p)`
applied to a 4-D input: it requires the channel count of the input to
equal `in_c`, a positive kernel, and a padded input at least as large as
the kernel (otherwise torch raises, modelled by `none`). -/
def conv2dShape (in_c out_c k s p : ℕ) (x : Shape4) : Option Shape4 :=
  if x.c = in_c ∧ 1 ≤ k ∧ k ≤ x.h + 2 * p ∧ k ≤ x.w + 2 * p then
    some ⟨x.n, out_c, convOutDim x.h k s p, convOutDim x.w k s p⟩
  else none

/-- Shape semantics of `nn.AvgPool2d(kernel_size=k, stride=s)`:
torch raises when the input is smaller than the kernel, modelled by
`none`. -/
def avgPool2dShape (k s : ℕ) (x : Shape4) : Option Shape4 :=
  if k ≤ x.h ∧ k ≤ x.w then
    some ⟨x.n, x.c, (x.h - k) / s + 1, (x.w - k) / s + 1⟩
  else none

/-- Shape semantics of `nn.PixelUnshuffle(r)`: both spatial extents must
be divisible by `r`; the output trades spatial extent for channels. -/
def pixelUnshuffleShape (r : ℕ) (x : Shape4) : Option Shape4 :=
  if r ∣ x.h ∧ r ∣ x.w then
    some ⟨x.n, x.c * r ^ 2, x.h / r, x.w / r⟩
  else none

/-- Shape semantics of `Downsample(channels, use_conv).forward` in the
form used by this module (`dims=2`, `out_channels=None`, `padding=1`):
the forward assert requires the input channel count to equal `channels`;
with `use_conv` the op is `conv_nd(2, channels, channels, 3, stride=2,
padding=1)`, otherwise `avg_pool_nd(2, kernel_size=2, stride=2)`. -/
def downsampleShape (channels : ℕ) (use_conv : Bool) (x : Shape4) : Option Shape4 :=
  if x.c = channels then
    if use_conv = true then conv2dShape channels channels 3 2 1 x
    else avgPool2dShape 2 2 x
  else none

/-- The constructor arguments of a `ResnetBlock`, which fully determine
its topology (`ResnetBlock.__init__`). -/
structure RBConfig where
  in_c : ℕ
  out_c : ℕ
  down : Bool
  ksize : ℕ
  sk : Bool
  use_conv : Bool
deriving DecidableEq, Repr

instance : Inhabited RBConfig := ⟨⟨0, 0, false, 0, false, false⟩⟩

/-- Shape semantics of `ResnetBlock.forward`, following the source line
by line: optional `Downsample`, optional `in_conv` (present exactly when
`in_c != out_c or sk == False`), then `block1` (3x3), ReLU (shape
preserving, elided), `block2` (ksize), and the residual addition with
`skep(x)` when `skep` is present (exactly when `in_conv` is absent) or
with `x` itself otherwise.  The addition requires both operands to have
the same shape. -/
def RBConfig.forwardShape (b : RBConfig) (x : Shape4) : Option Shape4 :=
  (if b.down = true then downsampleShape b.in_c b.use_conv x else some x).bind fun x1 =>
  (if b.in_c ≠ b.out_c ∨ b.sk = false then
      conv2dShape b.in_c b.out_c b.ksize 1 (b.ksize / 2) x1
    else some x1).bind fun x2 =>
  (conv2dShape b.out_c b.out_c 3 1 1 x2).bind fun h1 =>
  (conv2dShape b.out_c b.out_c b.ksize 1 (b.ksize / 2) h1).bind fun h2 =>
  (if b.in_c ≠ b.out_c ∨ b.sk = false then some x2
    else conv2dShape b.in_c b.out_c b.ksize 1 (b.ksize / 2) x2).bind fun r =>
  if h2 = r then some h2 else none

/-- The constructor arguments of an `Adapter` (`Adapter.__init__`). -/
structure Adapter where
  channels : List ℕ
  nums_rb : ℕ
  cin : ℕ
  ksize : ℕ
  sk : Bool
  use_conv : Bool
deriving DecidableEq, Repr

/-- The `ResnetBlock` appended at loop position `(i, j)` of
`Adapter.__init__`: a downsampling block from `channels[i-1]` to
`channels[i]` when `i != 0 and j == 0`, a same-channel block otherwise. -/
def Adapter.blockAt (A : Adapter) (i j : ℕ) : RBConfig :=
  if i ≠ 0 ∧ j = 0 then
    ⟨A.channels.getD (i - 1) 0, A.channels.getD i 0, true, A.ksize, A.sk, A.use_conv⟩
  else
    ⟨A.channels.getD i 0, A.channels.getD i 0, false, A.ksize, A.sk, A.use_conv⟩

/-- `Adapter.__init__` builds `self.body` by the nested loops
`for i in range(len(channels)): for j in range(nums_rb): append(...)`. -/
def Adapter.body (A : Adapter) : List RBConfig :=
  (List.range A.channels.length).flatMap fun i =>
    (List.range A.nums_rb).map fun j => A.blockAt i j

/-- Sequential application of a list of residual blocks. -/
def applyBlocks : List RBConfig → Shape4 → Option Shape4
  | [], x => some x
  | b :: bs, x => (b.forwardShape x).bind fun y => applyBlocks bs y

/-- The blocks visited by the inner loop of `Adapter.extract_patch` at
scale `i`: `self.body[i * self.nums_rb + j]` for `j in range(nums_rb)`. -/
def Adapter.rowBlocks (A : Adapter) (i : ℕ) : List RBConfig :=
  (List.range A.nums_rb).map fun j => A.body.getD (i * A.nums_rb + j) default

/-- One iteration of the outer loop of `Adapter.extract_patch`. -/
def Adapter.runRow (A : Adapter) (i : ℕ) (x : Shape4) : Option Shape4 :=
  applyBlocks (A.rowBlocks i) x

/-- The outer loop of `Adapter.extract_patch`: runs the row of blocks
for each scale index and appends the running tensor to `features`. -/
def Adapter.extractLoop (A : Adapter) : List ℕ → Shape4 → Option (List Shape4)
  | [], _ => some []
  | i :: is, x =>
    (A.runRow i x).bind fun y =>
    (A.extractLoop is y).bind fun fs => some (y :: fs)

/-- Shape semantics of `Adapter.extract_patch`: pixel-unshuffle by 8,
then `conv_in = nn.Conv2d(cin, channels[0], 3, 1, 1)`, then the nested
loops over `self.body`. -/
def Adapter.extract_patchShape (A : Adapter) (x : Shape4) : Option (List Shape4) :=
  (pixelUnshuffleShape 8 x).bind fun x1 =>
  (conv2dShape A.cin (A.channels.getD 0 0) 3 1 1 x1).bind fun x2 =>
  A.extractLoop (List.range A.channels.length) x2

/-- A concrete 4-D tensor: a shape together with an integer value at
every index (indices beyond the shape are irrelevant). -/
structure Tensor4 where
  n : ℕ
  c : ℕ
  h : ℕ
  w : ℕ
  data : ℕ → ℕ → ℕ → ℕ → ℤ

/-- A concrete 5-D tensor `(b, n, c, h, w)`. -/
structure Tensor5 where
  b : ℕ
  n : ℕ
  c : ℕ
  h : ℕ
  w : ℕ
  data : ℕ → ℕ → ℕ → ℕ → ℕ → ℤ

/-- Value semantics of `nn.PixelUnshuffle(r)`: output channel
`c * r^2 + r * i + j` at spatial position `(y, x)` holds the input value
of channel `c` at position `(y * r + i, x * r + j)`.  Both spatial
extents must be divisible by `r`. -/
def Tensor4.pixelUnshuffle (r : ℕ) (t : Tensor4) : Option Tensor4 :=
  if r ∣ t.h ∧ r ∣ t.w then
    some ⟨t.n, t.c * r ^ 2, t.h / r, t.w / r,
      fun b ch y x =>
        t.data b (ch / r ^ 2) (y * r + (ch % r ^ 2) / r) (x * r + (ch % r ^ 2) % r)⟩
  else none

/-- `ResnetBlock` with its layers as opaque functions on an abstract
tensor carrier `T`, mirroring the attributes set by
`ResnetBlock.__init__`.  `down_opt` is only created when `down` is
true. -/
structure ResnetBlockM (T : Type) where
  in_conv : Option (T → T)
  block1 : T → T
  act : T → T
  block2 : T → T
  skep : Option (T → T)
  down : Bool
  down_opt : Option (T → T)

/-- `ResnetBlock.__init__(in_c, out_c, down, ksize, sk, use_conv)`:
`conv c1 c2 k s p` stands for a fresh `nn.Conv2d(c1, c2, k, s, p)`,
`relu` for `nn.ReLU()` and `downLayer c uc` for a fresh
`Downsample(c, use_conv=uc)`.  `in_conv` is created exactly when
`in_c != out_c or sk == False`; `skep` exactly when `in_conv` is
absent; `down_opt` exactly when `down` is true. -/
def ResnetBlockM.init {T : Type} (conv : ℕ → ℕ → ℕ → ℕ → ℕ → T → T)
    (relu : T → T) (downLayer : ℕ → Bool → T → T)
    (in_c out_c : ℕ) (down : Bool) (ksize : ℕ) (sk : Bool) (use_conv : Bool) :
    ResnetBlockM T :=
  let ps := ksize / 2
  let in_conv : Option (T → T) :=
    if in_c ≠ out_c ∨ sk = false then some (conv in_c out_c ksize 1 ps) else none
  { in_conv := in_conv
    block1 := conv out_c out_c 3 1 1
    act := relu
    block2 := conv out_c out_c ksize 1 ps
    skep := match in_conv with
      | none => some (conv in_c out_c ksize 1 ps)
      | some _ => none
    down := down
    down_opt := if down = true then some (downLayer in_c use_conv) else none }

/-- `ResnetBlock.forward`, line by line. -/
def ResnetBlockM.forward {T : Type} [Add T] (b : ResnetBlockM T) (x : T) : T :=
  let x1 := if b.down = true then
      (match b.down_opt with
       | some f => f x
       | none => x)
    else x
  let x2 := match b.in_conv with
    | some f => f x1
    | none => x1
  let h1 := b.block1 x2
  let h2 := b.act h1
  let h3 := b.block2 h2
  match b.skep with
  | some s => h3 + s x2
  | none => h3 + x2

/-- An `Adapter` with its layers as opaque functions on concrete 4-D
tensors: `conv_in` and the body blocks abstract the convolutional
layers created in `Adapter.__init__`; the pixel-unshuffle keeps its
concrete value semantics. -/
structure AdapterM where
  channels : List ℕ
  nums_rb : ℕ
  conv_in : Tensor4 → Tensor4
  body : List (Tensor4 → Tensor4)

/-- The inner loop of `Adapter.extract_patch` at scale `i`: apply
`self.body[i * self.nums_rb + j]` for `j in range(nums_rb)`. -/
def AdapterM.runRowV (A : AdapterM) (i : ℕ) (x : Tensor4) : Tensor4 :=
  ((List.range A.nums_rb).map fun j => A.body.getD (i * A.nums_rb + j) id).foldl
    (fun acc f => f acc) x

/-- The outer loop of `Adapter.extract_patch` on values. -/
def AdapterM.extractLoopV (A : AdapterM) : List ℕ → Tensor4 → List Tensor4
  | [], _ => []
  | i :: is, x =>
    let y := A.runRowV i x
    y :: A.extractLoopV is y

/-- Value semantics of `Adapter.extract_patch`: pixel-unshuffle by 8,
`conv_in`, then the nested loops over the body. -/
def AdapterM.extract_patch (A : AdapterM) (x : Tensor4) : Option (List Tensor4) :=
  match x.pixelUnshuffle 8 with
  | none => none
  | some x1 => some (A.extractLoopV (List.range A.channels.length) (A.conv_in x1))

/-- `rearrange(cube, 'b n c h w -> (b n) c h w')`. -/
def rearrange_merge (t : Tensor5) : Tensor4 :=
  ⟨t.b * t.n, t.c, t.h, t.w, fun i ch y x => t.data (i / t.n) (i % t.n) ch y x⟩

/-- `rearrange(feat, '(b n) c h w -> b n c h w', b=b, n=n)`. -/
def rearrange_split (b n : ℕ) (t : Tensor4) : Tensor5 :=
  ⟨b, n, t.c, t.h, t.w, fun i j ch y x => t.data (i * n + j) ch y x⟩

/-- `Adapter.forward(cube, pers, process_idxs=None)`: flatten the view
axis of `cube`, extract its feature pyramid, reshape each level back to
`(b, n, c, h, w)`, extract the pyramid of `pers`, and return the pair.
The `process_idxs` argument is accepted (at any type) exactly as in the
source. -/
def AdapterM.forward {α : Type} (A : AdapterM) (cube : Tensor5) (pers : Tensor4)
    (process_idxs : α) : Option (List Tensor5 × List Tensor4) :=
  let b := cube.b
  let n := cube.n
  let cube4 := rearrange_merge cube
  match A.extract_patch cube4 with
  | none => none
  | some cube_feats =>
    let reshape_cube_feats := cube_feats.map (rearrange_split b n)
    match A.extract_patch pers with
    | none => none
    | some pers_feat => some (reshape_cube_feats, pers_feat)

/-- A parameter dictionary: finitely many named tensors, modelled as a
partial map from parameter names to values. -/
def StateDict : Type := String → Option ℤ

/-- The U-Net component of a pipeline as this module observes it: a
config, a state dict, a device, a dtype and a training flag. -/
structure UNetModel where
  config : ℕ
  state_dict : String → Option ℤ
  device : ℕ
  dtype : ℕ
  training : Bool

/-- Modelled library semantics of `module.load_state_dict(sd,
strict=False)`: the target keeps its own parameter set; a parameter
whose name also occurs in `sd` takes the value from `sd`, any other
parameter keeps its current value, and keys of `sd` absent from the
target are ignored. -/
def UNetModel.load_state_dict_nonstrict (m : UNetModel) (sd : String → Option ℤ) :
    UNetModel :=
  { m with state_dict := fun k =>
      match m.state_dict k with
      | some v0 =>
        match sd k with
        | some v => some v
        | none => some v0
      | none => none }

/-- Modelled library semantics of `module.to(device)`. -/
def UNetModel.to_device (m : UNetModel) (d : ℕ) : UNetModel :=
  { m with device := d }

/-- Modelled library semantics of `module.to(dtype)`. -/
def UNetModel.to_dtype (m : UNetModel) (d : ℕ) : UNetModel :=
  { m with dtype := d }

/-- Modelled library semantics of `module.eval()`: clears the training
flag. -/
def UNetModel.evalMode (m : UNetModel) : UNetModel :=
  { m with training := false }

/-- A generation pipeline as this module observes it: the `unet`
attribute plus its other components, which `patch_pipe` never touches
(`other` stands for any further attribute). -/
structure Pipe where
  unet : UNetModel
  text_encoder : ℕ
  scheduler : ℕ
  vae : ℕ
  tokenizer : ℕ
  other : ℕ

/-- `patch_pipe(pipe)`.  Modelled from the spec:
`T2IAdapterUNet2DConditionModel.from_config` (the companion U-Net
variant, defined elsewhere in this repository and not present under the
sources given) builds a fresh adapter-aware U-Net from a configuration;
it is abstracted as the function argument `from_config`.  The body then
follows the source: load the weights of `pipe.unet` non-strictly, move
to the device and dtype of `pipe.unet`, switch to eval mode, and only
then assign the result into `pipe.unet`. -/
def patch_pipe (from_config : ℕ → UNetModel) (pipe : Pipe) : Pipe :=
  let a_unet := from_config pipe.unet.config
  let a_unet := a_unet.load_state_dict_nonstrict pipe.unet.state_dict
  let a_unet := ((a_unet.to_device pipe.unet.device).to_dtype pipe.unet.dtype).evalMode
  { pipe with unet := a_unet }

/-- The four adapter types accepted by `Adapter.from_pretrained`
(`Literal["sketch", "seg", "keypose", "depth"]`). -/
inductive AdapterType where
  | sketch
  | seg
  | keypose
  | depth
deriving DecidableEq, Repr

/-- The `WEB_PATH` table of `Adapter.from_pretrained`. -/
def WEB_PATH : AdapterType → String
  | .sketch =>
    "https://huggingface.co/TencentARC/T2I-Adapter/resolve/main/models/t2iadapter_sketch_sd14v1.pth"
  | .depth =>
    "https://huggingface.co/TencentARC/T2I-Adapter/resolve/main/models/t2iadapter_depth_sd14v1.pth"
  | .seg =>
    "https://huggingface.co/TencentARC/T2I-Adapter/resolve/main/models/t2iadapter_seg_sd14v1.pth"
  | .keypose =>
    "https://huggingface.co/TencentARC/T2I-Adapter/resolve/main/models/t2iadapter_keypose_sd14v1.pth"

/-- `Adapter.from_pretrained(adapter_type)`: builds the fixed
architecture (default `cin=64` for `"sketch"`, `cin=64*3` otherwise)
and loads the state dict fetched from the fixed URL of that type;
`fetch` abstracts `torch.hub.load_state_dict_from_url`, and the strict
`load_state_dict` replaces the parameter values by the fetched dict. -/
def Adapter.from_pretrained (fetch : String → StateDict) (adapter_type : AdapterType) :
    Adapter × StateDict :=
  let mod : Adapter :=
    match adapter_type with
    | .sketch =>
      { channels := [320, 640, 1280, 1280], nums_rb := 2, cin := 64,
        ksize := 1, sk := true, use_conv := false }
    | _ =>
      { channels := [320, 640, 1280, 1280], nums_rb := 2, cin := 64 * 3,
        ksize := 1, sk := true, use_conv := false }
  (mod, fetch (WEB_PATH adapter_type))

/-- `conv_nd(dims, *args)`: a 1-D, 2-D or 3-D convolution module
(encoded as the pair of its dimensionality and its arguments), or a
`ValueError` for any other `dims`. -/
def conv_nd (dims : ℕ) (args : List ℕ) : Except String (ℕ × List ℕ) :=
  if dims = 1 then .ok (1, args)
  else if dims = 2 then .ok (2, args)
  else if dims = 3 then .ok (3, args)
  else .error "unsupported dimensions"

/-- `avg_pool_nd(dims, *args)`: a 1-D, 2-D or 3-D average-pooling
module, or a `ValueError` for any other `dims`. -/
def avg_pool_nd (dims : ℕ) (args : List ℕ) : Except String (ℕ × List ℕ) :=
  if dims = 1 then .ok (1, args)
  else if dims = 2 then .ok (2, args)
  else if dims = 3 then .ok (3, args)
  else .error "unsupported dimensions"

/-- The module object built by `Downsample.__init__`. -/
structure DownsampleM where
  channels : ℕ
  out_channels : ℕ
  use_conv : Bool
  dims : ℕ
  op : ℕ × List ℕ

/-- `Downsample.__init__(channels, use_conv, dims, out_channels,
padding)`: `out_channels` defaults to `channels`; the stride is `2`
(`(1, 2, 2)` for `dims=3`, encoded as a list); with `use_conv` the op
comes from `conv_nd`, otherwise the assert `channels == out_channels`
must hold and the op comes from `avg_pool_nd` with the stride as both
kernel size and stride. -/
def Downsample.init (channels : ℕ) (use_conv : Bool) (dims : ℕ)
    (out_channels : Option ℕ) (padding : ℕ) : Except String DownsampleM :=
  let out_c := out_channels.getD channels
  let stride : List ℕ := if dims ≠ 3 then [2] else [1, 2, 2]
  if use_conv = true then
    match conv_nd dims ([channels, out_c, 3] ++ stride ++ [padding]) with
    | .ok m => .ok ⟨channels, out_c, use_conv, dims, m⟩
    | .error e => .error e
  else
    if channels = out_c then
      match avg_pool_nd dims (stride ++ stride) with
      | .ok m => .ok ⟨channels, out_c, use_conv, dims, m⟩
      | .error e => .error e
    else .error "assert failed"

/-- A concrete U-Net constructor used to instantiate the patching
theorem: every config yields a model with one parameter `w` valued 7. -/
def demoFromConfig : ℕ → UNetModel :=
  fun c => ⟨c, fun s => if s = "w" then some 7 else none, 0, 0, true⟩

/-- A concrete pipeline used to instantiate the patching theorem. -/
def demoPipe : Pipe :=
  ⟨⟨5, fun s => if s = "w" then some 3 else none, 1, 2, true⟩, 0, 0, 0, 0, 0⟩

/-- A concrete constant tensor used to instantiate the pixel-unshuffle
theorem. -/
def demoTensor : Tensor4 :=
  ⟨1, 1, 8, 8, fun _ _ _ _ => 5⟩

theorem flatMap_range_length {α : Type} (f : ℕ → List α) (m n : ℕ)
    (hf : ∀ i, (f i).length = m) :
    ((List.range n).flatMap f).length = n * m := by
  induction n with
  | zero => simp
  | succ k ih =>
    rw [List.range_succ k, List.flatMap_append]
    simp [ih, hf, Nat.succ_mul]

theorem flatMap_range_getElem? {α : Type} (f : ℕ → List α) (m : ℕ)
    (hf : ∀ i, (f i).length = m) :
    ∀ (n i j : ℕ), i < n → j < m →
      ((List.range n).flatMap f)[i * m + j]? = (f i)[j]? := by
  intro n
  induction n with
  | zero => exact fun i j hi _ => absurd hi (Nat.not_lt_zero i)
  | succ k ih =>
    intro i j hi hj
    rw [List.range_succ k, List.flatMap_append]
    have hlen : ((List.range k).flatMap f).length = k * m :=
      flatMap_range_length f m k hf
    by_cases hik : i < k
    · rw [List.getElem?_append_left]
      · exact ih i j hik hj
      · rw [hlen]
        have h1 : i * m + j < (i + 1) * m := by
          rw [Nat.add_mul, Nat.one_mul]
          exact Nat.add_lt_add_left hj _
        exact lt_of_lt_of_le h1 (Nat.mul_le_mul hik (Nat.le_refl m))
    · have hik2 : i = k := by omega
      subst hik2
      rw [List.getElem?_append_right]
      · rw [hlen, Nat.add_sub_cancel_left]
        simp [List.flatMap_cons]
      · rw [hlen]
        exact Nat.le_add_right (i * m) j

theorem Adapter.body_length (A : Adapter) :
    A.body.length = A.channels.length * A.nums_rb :=
  flatMap_range_length _ A.nums_rb A.channels.length (fun i => by simp)

theorem Adapter.body_getElem? (A : Adapter) (i j : ℕ)
    (hi : i < A.channels.length) (hj : j < A.nums_rb) :
    A.body[i * A.nums_rb + j]? = some (A.blockAt i j) := by
  unfold Adapter.body
  rw [flatMap_range_getElem? _ A.nums_rb (fun x => by simp) _ i j hi hj]
  rw [List.getElem?_map, List.getElem?_range hj]
  rfl

theorem Adapter.body_getD (A : Adapter) (i j : ℕ)
    (hi : i < A.channels.length) (hj : j < A.nums_rb) :
    A.body.getD (i * A.nums_rb + j) default = A.blockAt i j := by
  rw [List.getD_eq_getElem?_getD, Adapter.body_getElem? A i j hi hj]
  rfl

/-- C5: the topology of `Adapter.body` is fixed and fully determined by
the constructor arguments: it holds exactly `len(channels) * nums_rb`
residual blocks, and the block at index `i * nums_rb + j` is a
downsampling block `channels[i-1] -> channels[i]` exactly when
`i != 0 and j == 0`, and a non-downsampling block
`channels[i] -> channels[i]` in every other position. -/
theorem adapter_body_topology (A : Adapter) (i j : ℕ)
    (hi : i < A.channels.length) (hj : j < A.nums_rb) :
    A.body.length = A.channels.length * A.nums_rb ∧
    A.body.getD (i * A.nums_rb + j) default =
      (if i ≠ 0 ∧ j = 0 then
        ⟨A.channels.getD (i - 1) 0, A.channels.getD i 0, true, A.ksize, A.sk, A.use_conv⟩
      else
        ⟨A.channels.getD i 0, A.channels.getD i 0, false, A.ksize, A.sk, A.use_conv⟩) :=
  ⟨A.body_length, by rw [A.body_getD i j hi hj]; rfl⟩

/-- Witness for C5 at a concrete adapter: the block at index 1 of
`Adapter([1, 2], nums_rb=1)` is the downsampling block from 1 to 2
channels. -/
theorem adapter_body_topology_witness :
    (Adapter.mk [1, 2] 1 64 3 false true).body.getD 1 default =
      ⟨1, 2, true, 3, false, true⟩ := by
  have h := adapter_body_topology ⟨[1, 2], 1, 64, 3, false, true⟩ 1 0 (by decide) (by decide)
  simpa using h.2

theorem downsampleShape_spec (channels : ℕ) (use_conv : Bool) (n h w : ℕ)
    (hh2 : 2 ∣ h) (hw2 : 2 ∣ w) (hh0 : 0 < h) (hw0 : 0 < w) :
    downsampleShape channels use_conv ⟨n, channels, h, w⟩ =
      some ⟨n, channels, h / 2, w / 2⟩ := by
  obtain ⟨a, rfl⟩ := hh2
  obtain ⟨b, rfl⟩ := hw2
  cases use_conv with
  | false =>
    simp only [downsampleShape, avgPool2dShape]
    norm_num
    omega
  | true =>
    simp only [downsampleShape, conv2dShape, convOutDim]
    norm_num
    omega

/-- C4 (amended): for positive even spatial extents, `Downsample`
halves the spatial resolution in both variants. -/
theorem downsample_halves (channels : ℕ) (use_conv : Bool) (n h w : ℕ)
    (hh2 : 2 ∣ h) (hw2 : 2 ∣ w) (hh0 : 0 < h) (hw0 : 0 < w) :
    downsampleShape channels use_conv ⟨n, channels, h, w⟩ =
      some ⟨n, channels, h / 2, w / 2⟩ :=
  downsampleShape_spec channels use_conv n h w hh2 hw2 hh0 hw0

/-- Witness for C4: both variants halve a 4 x 6 input with 3 channels. -/
theorem downsample_halves_witness :
    downsampleShape 3 true ⟨1, 3, 4, 6⟩ = some ⟨1, 3, 2, 3⟩ ∧
    downsampleShape 3 false ⟨1, 3, 4, 6⟩ = some ⟨1, 3, 2, 3⟩ :=
  ⟨downsample_halves 3 true 1 4 6 (by decide) (by decide) (by decide) (by decide),
   downsample_halves 3 false 1 4 6 (by decide) (by decide) (by decide) (by decide)⟩

/-- Counterexample to C4 as stated: on the (even) spatial size 0 x 0
the downsampling layer raises instead of returning a 0 x 0 tensor. -/
theorem downsample_zero_counterexample :
    downsampleShape 1 true ⟨1, 1, 0, 0⟩ = none ∧
    downsampleShape 1 true ⟨1, 1, 0, 0⟩ ≠ some ⟨1, 1, 0 / 2, 0 / 2⟩ := by decide

/-- C9: `conv_nd` and `avg_pool_nd` succeed exactly for `dims` in
`{1, 2, 3}` (raising `ValueError` otherwise), and every `Downsample`
built with the default `dims=2` - the only form this module uses -
constructs its op without reaching the error branch. -/
theorem conv_nd_error_handling :
    (∀ dims args, (∃ m, conv_nd dims args = .ok m) ↔ dims = 1 ∨ dims = 2 ∨ dims = 3) ∧
    (∀ dims args, (∃ m, avg_pool_nd dims args = .ok m) ↔ dims = 1 ∨ dims = 2 ∨ dims = 3) ∧
    (∀ channels use_conv,
      ∃ d, Downsample.init channels use_conv 2 none 1 = .ok d) := by
  refine ⟨fun dims args => ?_, fun dims args => ?_, fun channels use_conv => ?_⟩
  · unfold conv_nd
    by_cases h1 : dims = 1
    · simp [h1]
    by_cases h2 : dims = 2
    · simp [h1, h2]
    by_cases h3 : dims = 3
    · simp [h1, h2, h3]
    simp [h1, h2, h3]
  · unfold avg_pool_nd
    by_cases h1 : dims = 1
    · simp [h1]
    by_cases h2 : dims = 2
    · simp [h1, h2]
    by_cases h3 : dims = 3
    · simp [h1, h2, h3]
    simp [h1, h2, h3]
  · cases use_conv with
    | true => exact ⟨_, rfl⟩
    | false =>
      refine ⟨⟨channels, channels, false, 2, (2, [2, 2])⟩, ?_⟩
      unfold Downsample.init
      rw [if_neg (by simp), if_pos (show channels = (none : Option ℕ).getD channels from rfl)]
      rfl

/-- C2: `ResnetBlock.forward(x)` always equals
`block2(relu(block1(x2))) + r`, where `x1` is the downsampled input
when `down` is true and `x` otherwise, `x2` is `in_conv(x1)` when
`in_c != out_c or sk == False` and `x1` otherwise, and the residual `r`
is `skep(x2)` when the skip projection exists and `x2` itself
otherwise. -/
theorem resnetBlock_forward_decomposition {T : Type} [Add T]
    (conv : ℕ → ℕ → ℕ → ℕ → ℕ → T → T) (relu : T → T)
    (downLayer : ℕ → Bool → T → T) (in_c out_c ksize : ℕ)
    (down sk use_conv : Bool) (x : T) :
    (ResnetBlockM.init conv relu downLayer in_c out_c down ksize sk use_conv).forward x =
      (let b := ResnetBlockM.init conv relu downLayer in_c out_c down ksize sk use_conv
       let x1 := if down = true then downLayer in_c use_conv x else x
       let x2 := if in_c ≠ out_c ∨ sk = false then
           conv in_c out_c ksize 1 (ksize / 2) x1
         else x1
       b.block2 (relu (b.block1 x2)) +
         (match b.skep with
          | some s => s x2
          | none => x2)) := by
  by_cases hd : down = true <;> by_cases hc : in_c ≠ out_c ∨ sk = false <;>
    simp [ResnetBlockM.init, ResnetBlockM.forward, hd, hc]

/-- C10: `Adapter.forward` ignores its `process_idxs` argument
entirely (even across types), and its output is always the pair of the
reshaped per-view cube pyramid and `extract_patch(pers)`. -/
theorem adapter_forward_ignores_process_idxs {α β : Type} (A : AdapterM)
    (cube : Tensor5) (pers : Tensor4) (a : α) (b : β) :
    A.forward cube pers a = A.forward cube pers b ∧
    A.forward cube pers a =
      (match A.extract_patch (rearrange_merge cube) with
       | none => none
       | some cube_feats =>
         match A.extract_patch pers with
         | none => none
         | some pers_feat =>
           some (cube_feats.map (rearrange_split cube.b cube.n), pers_feat)) :=
  ⟨rfl, rfl⟩

/-- C7: `patch_pipe` modifies only the `unet` attribute of the
pipeline; every other component is returned unchanged. -/
theorem patch_pipe_frame (from_config : ℕ → UNetModel) (p : Pipe) :
    (patch_pipe from_config p).text_encoder = p.text_encoder ∧
    (patch_pipe from_config p).scheduler = p.scheduler ∧
    (patch_pipe from_config p).vae = p.vae ∧
    (patch_pipe from_config p).tokenizer = p.tokenizer ∧
    (patch_pipe from_config p).other = p.other :=
  ⟨rfl, rfl, rfl, rfl, rfl⟩

/-- C3: `patch_pipe` builds the adapter-aware U-Net from the config of
`pipe.unet`, loads the original weights non-strictly (the new model
keeps its own parameter set, and every shared parameter name takes the
original value), moves it to the original device and dtype, puts it in
eval mode, and assigns it into `pipe.unet`. -/
theorem patch_pipe_spec (from_config : ℕ → UNetModel) (p : Pipe)
    (k : String) (v w : ℤ)
    (hnew : (from_config p.unet.config).state_dict k = some w)
    (horig : p.unet.state_dict k = some v) :
    (patch_pipe from_config p).unet.device = p.unet.device ∧
    (patch_pipe from_config p).unet.dtype = p.unet.dtype ∧
    (patch_pipe from_config p).unet.training = false ∧
    (patch_pipe from_config p).unet.config = (from_config p.unet.config).config ∧
    (∀ s, ((patch_pipe from_config p).unet.state_dict s).isSome =
        ((from_config p.unet.config).state_dict s).isSome) ∧
    (patch_pipe from_config p).unet.state_dict k = some v := by
  refine ⟨rfl, rfl, rfl, rfl, fun s => ?_, ?_⟩
  · simp only [patch_pipe, UNetModel.load_state_dict_nonstrict, UNetModel.to_device,
      UNetModel.to_dtype, UNetModel.evalMode]
    cases h1 : (from_config p.unet.config).state_dict s <;>
      cases h2 : p.unet.state_dict s <;> simp [h1, h2]
  · simp [patch_pipe, UNetModel.load_state_dict_nonstrict, UNetModel.to_device,
      UNetModel.to_dtype, UNetModel.evalMode, hnew, horig]

/-- Witness for C3 at a concrete constructor and pipeline: the shared
parameter `w` of the patched unet carries the original value 3. -/
theorem patch_pipe_spec_witness :
    (demoFromConfig demoPipe.unet.config).state_dict "w" = some 7 ∧
    demoPipe.unet.state_dict "w" = some 3 ∧
    (patch_pipe demoFromConfig demoPipe).unet.state_dict "w" = some 3 := by
  refine ⟨by simp [demoFromConfig], by simp [demoPipe], ?_⟩
  exact (patch_pipe_spec demoFromConfig demoPipe "w" 3 7 (by simp [demoFromConfig])
    (by simp [demoPipe])).2.2.2.2.2

/-- C6: `from_pretrained` accepts exactly the four adapter types; each
yields channels `[320, 640, 1280, 1280]`, `nums_rb=2`, `ksize=1`,
`sk=True`, `use_conv=False`, with `cin=64` for sketch and `cin=192`
otherwise, and the weights fetched from the fixed URL of the type. -/
theorem from_pretrained_spec (fetch : String → StateDict) (t : AdapterType) :
    (Adapter.from_pretrained fetch t).1.channels = [320, 640, 1280, 1280] ∧
    (Adapter.from_pretrained fetch t).1.nums_rb = 2 ∧
    (Adapter.from_pretrained fetch t).1.ksize = 1 ∧
    (Adapter.from_pretrained fetch t).1.sk = true ∧
    (Adapter.from_pretrained fetch t).1.use_conv = false ∧
    (Adapter.from_pretrained fetch t).1.cin = (if t = .sketch then 64 else 192) ∧
    (Adapter.from_pretrained fetch t).2 = fetch (WEB_PATH t) ∧
    (t = .sketch ∨ t = .seg ∨ t = .keypose ∨ t = .depth) ∧
    WEB_PATH .sketch =
      "https://huggingface.co/TencentARC/T2I-Adapter/resolve/main/models/t2iadapter_sketch_sd14v1.pth" ∧
    WEB_PATH .seg =
      "https://huggingface.co/TencentARC/T2I-Adapter/resolve/main/models/t2iadapter_seg_sd14v1.pth" ∧
    WEB_PATH .keypose =
      "https://huggingface.co/TencentARC/T2I-Adapter/resolve/main/models/t2iadapter_keypose_sd14v1.pth" ∧
    WEB_PATH .depth =
      "https://huggingface.co/TencentARC/T2I-Adapter/resolve/main/models/t2iadapter_depth_sd14v1.pth" := by
  cases t <;> simp [Adapter.from_pretrained, WEB_PATH]

/-- C8: the pixel-unshuffle step is a pure rearrangement: the output
shape is `(N, 64C, H/8, W/8)`, the element count is preserved, and
every output value is one of the input values. -/
theorem pixelUnshuffle_pure_rearrangement (t : Tensor4)
    (hh : 8 ∣ t.h) (hw : 8 ∣ t.w) :
    ∃ u, t.pixelUnshuffle 8 = some u ∧
      u.n = t.n ∧ u.c = 64 * t.c ∧ u.h = t.h / 8 ∧ u.w = t.w / 8 ∧
      u.n * u.c * u.h * u.w = t.n * t.c * t.h * t.w ∧
      (∀ b ch y x, b < u.n → ch < u.c → y < u.h → x < u.w →
        ∃ b2 c2 y2 x2, b2 < t.n ∧ c2 < t.c ∧ y2 < t.h ∧ x2 < t.w ∧
          u.data b ch y x = t.data b2 c2 y2 x2) := by
  refine ⟨⟨t.n, t.c * 64, t.h / 8, t.w / 8,
      fun b ch y x =>
        t.data b (ch / 64) (y * 8 + (ch % 64) / 8) (x * 8 + (ch % 64) % 8)⟩,
    ?_, rfl, Nat.mul_comm t.c 64, rfl, rfl, ?_, ?_⟩
  · unfold Tensor4.pixelUnshuffle
    rw [if_pos ⟨hh, hw⟩]
    rfl
  · show t.n * (t.c * 64) * (t.h / 8) * (t.w / 8) = t.n * t.c * t.h * t.w
    obtain ⟨a, ha⟩ := hh
    obtain ⟨b, hb⟩ := hw
    rw [ha, hb]
    have e1 : 8 * a / 8 = a := by omega
    have e2 : 8 * b / 8 = b := by omega
    rw [e1, e2]
    ring
  · intro b ch y x hb hch hy hx
    dsimp only at hb hch hy hx
    refine ⟨b, ch / 64, y * 8 + (ch % 64) / 8, x * 8 + (ch % 64) % 8,
      hb, ?_, ?_, ?_, rfl⟩
    · omega
    · obtain ⟨a, ha⟩ := hh
      omega
    · obtain ⟨b2, hb2⟩ := hw
      omega

/-- Witness for C8 on a concrete constant 1 x 1 x 8 x 8 tensor. -/
theorem pixelUnshuffle_pure_rearrangement_witness :
    ∃ u, demoTensor.pixelUnshuffle 8 = some u ∧
      u.n = demoTensor.n ∧ u.c = 64 * demoTensor.c ∧
      u.h = demoTensor.h / 8 ∧ u.w = demoTensor.w / 8 ∧
      u.n * u.c * u.h * u.w = demoTensor.n * demoTensor.c * demoTensor.h * demoTensor.w ∧
      (∀ b ch y x, b < u.n → ch < u.c → y < u.h → x < u.w →
        ∃ b2 c2 y2 x2, b2 < demoTensor.n ∧ c2 < demoTensor.c ∧
          y2 < demoTensor.h ∧ x2 < demoTensor.w ∧
          u.data b ch y x = demoTensor.data b2 c2 y2 x2) :=
  pixelUnshuffle_pure_rearrangement demoTensor (by decide) (by decide)

theorem conv2dShape_same (c out_c k n h w : ℕ) (hk : k % 2 = 1)
    (hh : 1 ≤ h) (hw : 1 ≤ w) :
    conv2dShape c out_c k 1 (k / 2) ⟨n, c, h, w⟩ = some ⟨n, out_c, h, w⟩ := by
  unfold conv2dShape convOutDim
  dsimp only
  split_ifs with hcond
  · simp only [Option.some.injEq, Shape4.mk.injEq, eq_self_iff_true, true_and]
    exact ⟨by omega, by omega⟩
  · exact absurd ⟨rfl, by omega, (by omega : k ≤ h + 2 * (k / 2)),
      (by omega : k ≤ w + 2 * (k / 2))⟩ hcond

theorem rb_forwardShape_same (c k : ℕ) (sk uc : Bool) (n h w : ℕ)
    (hk : k % 2 = 1) (hh : 1 ≤ h) (hw : 1 ≤ w) :
    RBConfig.forwardShape ⟨c, c, false, k, sk, uc⟩ ⟨n, c, h, w⟩ = some ⟨n, c, h, w⟩ := by
  have h1 : conv2dShape c c k 1 (k / 2) ⟨n, c, h, w⟩ = some ⟨n, c, h, w⟩ :=
    conv2dShape_same c c k n h w hk hh hw
  have h2 : conv2dShape c c 3 1 1 ⟨n, c, h, w⟩ = some ⟨n, c, h, w⟩ := by
    have := conv2dShape_same c c 3 n h w (by norm_num) hh hw
    norm_num at this
    exact this
  cases sk <;> simp [RBConfig.forwardShape, h1, h2]

theorem rb_forwardShape_down (cp c k : ℕ) (sk uc : Bool) (n h w : ℕ)
    (hk : k % 2 = 1) (hh2 : 2 ∣ h) (hw2 : 2 ∣ w) (hh0 : 0 < h) (hw0 : 0 < w) :
    RBConfig.forwardShape ⟨cp, c, true, k, sk, uc⟩ ⟨n, cp, h, w⟩ =
      some ⟨n, c, h / 2, w / 2⟩ := by
  have hd : downsampleShape cp uc ⟨n, cp, h, w⟩ = some ⟨n, cp, h / 2, w / 2⟩ :=
    downsampleShape_spec cp uc n h w hh2 hw2 hh0 hw0
  have hhp : 1 ≤ h / 2 := by omega
  have hwp : 1 ≤ w / 2 := by omega
  have h1 : conv2dShape cp c k 1 (k / 2) ⟨n, cp, h / 2, w / 2⟩ =
      some ⟨n, c, h / 2, w / 2⟩ :=
    conv2dShape_same cp c k n (h / 2) (w / 2) hk hhp hwp
  have h2 : conv2dShape c c 3 1 1 ⟨n, c, h / 2, w / 2⟩ = some ⟨n, c, h / 2, w / 2⟩ := by
    have := conv2dShape_same c c 3 n (h / 2) (w / 2) (by norm_num) hhp hwp
    norm_num at this
    exact this
  have h3 : conv2dShape c c k 1 (k / 2) ⟨n, c, h / 2, w / 2⟩ =
      some ⟨n, c, h / 2, w / 2⟩ :=
    conv2dShape_same c c k n (h / 2) (w / 2) hk hhp hwp
  by_cases hc : cp ≠ c ∨ sk = false
  · simp [RBConfig.forwardShape, hd, hc, h1, h2, h3]
  · have hcc : cp = c := by
      rcases not_or.mp hc with ⟨hne, _⟩
      exact not_not.mp hne
    subst hcc
    simp [RBConfig.forwardShape, hd, hc, h1, h2, h3]

theorem Adapter.rowBlocks_eq (A : Adapter) (i : ℕ) (hi : i < A.channels.length) :
    A.rowBlocks i = (List.range A.nums_rb).map (A.blockAt i) := by
  unfold Adapter.rowBlocks
  exact List.map_congr_left fun j hj => A.body_getD i j hi (List.mem_range.mp hj)

theorem applyBlocks_nd (c k : ℕ) (sk uc : Bool) (l : List RBConfig)
    (hl : ∀ b ∈ l, b = ⟨c, c, false, k, sk, uc⟩) (hk : k % 2 = 1)
    (n h w : ℕ) (hh : 1 ≤ h) (hw : 1 ≤ w) :
    applyBlocks l ⟨n, c, h, w⟩ = some ⟨n, c, h, w⟩ := by
  induction l with
  | nil => rfl
  | cons b bs ih =>
    have hb : b = ⟨c, c, false, k, sk, uc⟩ := hl b (List.mem_cons_self b bs)
    subst hb
    simp only [applyBlocks, rb_forwardShape_same c k sk uc n h w hk hh hw,
      Option.some_bind]
    exact ih fun b2 hb2 => hl b2 (List.mem_cons_of_mem _ hb2)

theorem Adapter.runRow_zero (A : Adapter) (hL : 0 < A.channels.length)
    (hk : A.ksize % 2 = 1) (n h w : ℕ) (hh : 1 ≤ h) (hw : 1 ≤ w) :
    A.runRow 0 ⟨n, A.channels.getD 0 0, h, w⟩ = some ⟨n, A.channels.getD 0 0, h, w⟩ := by
  unfold Adapter.runRow
  rw [A.rowBlocks_eq 0 hL]
  refine applyBlocks_nd (A.channels.getD 0 0) A.ksize A.sk A.use_conv _ ?_ hk n h w hh hw
  intro b hb
  obtain ⟨j, hj, rfl⟩ := List.mem_map.mp hb
  simp [Adapter.blockAt]

theorem Adapter.runRow_pos (A : Adapter) (i : ℕ) (hi : i < A.channels.length)
    (hi0 : i ≠ 0) (hm : 1 ≤ A.nums_rb) (hk : A.ksize % 2 = 1)
    (n h w : ℕ) (hh2 : 2 ∣ h) (hw2 : 2 ∣ w) (hh0 : 0 < h) (hw0 : 0 < w) :
    A.runRow i ⟨n, A.channels.getD (i - 1) 0, h, w⟩ =
      some ⟨n, A.channels.getD i 0, h / 2, w / 2⟩ := by
  unfold Adapter.runRow
  rw [A.rowBlocks_eq i hi]
  obtain ⟨m, hm2⟩ : ∃ m, A.nums_rb = m + 1 := ⟨A.nums_rb - 1, by omega⟩
  rw [hm2, List.range_succ_eq_map m]
  simp only [List.map_cons, List.map_map]
  have hb0 : A.blockAt i 0 =
      ⟨A.channels.getD (i - 1) 0, A.channels.getD i 0, true, A.ksize, A.sk, A.use_conv⟩ := by
    simp [Adapter.blockAt, hi0]
  simp only [applyBlocks, hb0,
    rb_forwardShape_down (A.channels.getD (i - 1) 0) (A.channels.getD i 0) A.ksize
      A.sk A.use_conv n h w hk hh2 hw2 hh0 hw0,
    Option.some_bind]
  refine applyBlocks_nd (A.channels.getD i 0) A.ksize A.sk A.use_conv _ ?_ hk n
    (h / 2) (w / 2) (by omega) (by omega)
  intro b hb
  obtain ⟨j, hj, rfl⟩ := List.mem_map.mp hb
  simp [Function.comp, Adapter.blockAt]

theorem Adapter.extractLoop_spec (A : Adapter) (N H W : ℕ)
    (hk : A.ksize % 2 = 1) (hm : 1 ≤ A.nums_rb)
    (hH : 8 * 2 ^ (A.channels.length - 1) ∣ H)
    (hW : 8 * 2 ^ (A.channels.length - 1) ∣ W)
    (hH0 : 0 < H) (hW0 : 0 < W) :
    ∀ (k a : ℕ), a + k = A.channels.length →
      A.extractLoop (List.range' a k)
        ⟨N, A.channels.getD (a - 1) 0, H / (8 * 2 ^ (a - 1)), W / (8 * 2 ^ (a - 1))⟩ =
      some ((List.range' a k).map fun i =>
        (⟨N, A.channels.getD i 0, H / (8 * 2 ^ i), W / (8 * 2 ^ i)⟩ : Shape4)) := by
  intro k
  induction k with
  | zero => intro a ha; rfl
  | succ k2 ih =>
    intro a ha
    have hiL : a < A.channels.length := by omega
    have hdvaH : 8 * 2 ^ a ∣ H := by
      refine dvd_trans (mul_dvd_mul_left 8 (pow_dvd_pow 2 (by omega))) hH
    have hdvaW : 8 * 2 ^ a ∣ W := by
      refine dvd_trans (mul_dvd_mul_left 8 (pow_dvd_pow 2 (by omega))) hW
    have step : A.runRow a
        ⟨N, A.channels.getD (a - 1) 0, H / (8 * 2 ^ (a - 1)), W / (8 * 2 ^ (a - 1))⟩ =
        some ⟨N, A.channels.getD a 0, H / (8 * 2 ^ a), W / (8 * 2 ^ a)⟩ := by
      by_cases ha0 : a = 0
      · subst ha0
        simp only [Nat.zero_sub, pow_zero, mul_one]
        exact A.runRow_zero hiL hk N (H / 8) (W / 8)
          (by obtain ⟨q, hq⟩ := hdvaH; omega)
          (by obtain ⟨q, hq⟩ := hdvaW; omega)
      · have hdvpH : 8 * 2 ^ (a - 1) ∣ H := by
          refine dvd_trans (mul_dvd_mul_left 8 (pow_dvd_pow 2 (by omega))) hH
        have hdvpW : 8 * 2 ^ (a - 1) ∣ W := by
          refine dvd_trans (mul_dvd_mul_left 8 (pow_dvd_pow 2 (by omega))) hW
        have hp : 0 < 8 * 2 ^ (a - 1) := by positivity
        have epow : 8 * 2 ^ (a - 1) * 2 = 8 * 2 ^ a := by
          have e2 : a - 1 + 1 = a := by omega
          rw [mul_assoc, ← pow_succ, e2]
        have hposH : 0 < H / (8 * 2 ^ (a - 1)) := by
          obtain ⟨q, hq⟩ := hdvpH
          rw [hq, Nat.mul_div_cancel_left q hp]
          rcases Nat.eq_zero_or_pos q with h0 | h0
          · exfalso
            rw [h0, mul_zero] at hq
            omega
          · exact h0
        have hposW : 0 < W / (8 * 2 ^ (a - 1)) := by
          obtain ⟨q, hq⟩ := hdvpW
          rw [hq, Nat.mul_div_cancel_left q hp]
          rcases Nat.eq_zero_or_pos q with h0 | h0
          · exfalso
            rw [h0, mul_zero] at hq
            omega
          · exact h0
        have eH : H / (8 * 2 ^ (a - 1)) / 2 = H / (8 * 2 ^ a) := by
          rw [Nat.div_div_eq_div_mul, epow]
        have eW : W / (8 * 2 ^ (a - 1)) / 2 = W / (8 * 2 ^ a) := by
          rw [Nat.div_div_eq_div_mul, epow]
        have h2H : 2 ∣ H / (8 * 2 ^ (a - 1)) := by
          obtain ⟨q, hq⟩ := hdvaH
          refine ⟨q, ?_⟩
          rw [hq, ← epow, mul_assoc, Nat.mul_div_cancel_left _ hp]
        have h2W : 2 ∣ W / (8 * 2 ^ (a - 1)) := by
          obtain ⟨q, hq⟩ := hdvaW
          refine ⟨q, ?_⟩
          rw [hq, ← epow, mul_assoc, Nat.mul_div_cancel_left _ hp]
        have hr := A.runRow_pos a hiL ha0 hm hk N _ _ h2H h2W hposH hposW
        rw [hr, eH, eW]
    rw [List.range'_succ]
    simp only [Adapter.extractLoop, step, Option.some_bind]
    have htail := ih (a + 1) (by omega)
    simp only [Nat.add_sub_cancel] at htail
    rw [htail]
    simp only [Option.some_bind, List.map_cons]

/-- C1 (amended): for every Adapter with nonempty `channels`,
`nums_rb >= 1` and odd `ksize`, and every input `(N, C, H, W)` with
`64 * C = cin` and positive `H`, `W` divisible by
`8 * 2 ^ (len(channels) - 1)`, `extract_patch` returns exactly
`len(channels)` feature maps, the i-th having `channels[i]` channels
and spatial resolution `(H / (8 * 2^i)) x (W / (8 * 2^i))`. -/
theorem adapter_extract_patch_pyramid (A : Adapter) (N C H W : ℕ)
    (hch : A.channels ≠ []) (hm : 1 ≤ A.nums_rb) (hk : A.ksize % 2 = 1)
    (hcin : A.cin = 64 * C) (hH0 : 0 < H) (hW0 : 0 < W)
    (hH : 8 * 2 ^ (A.channels.length - 1) ∣ H)
    (hW : 8 * 2 ^ (A.channels.length - 1) ∣ W) :
    ∃ fs, A.extract_patchShape ⟨N, C, H, W⟩ = some fs ∧
      fs.length = A.channels.length ∧
      ∀ i, i < A.channels.length →
        fs.getD i default = ⟨N, A.channels.getD i 0, H / (8 * 2 ^ i), W / (8 * 2 ^ i)⟩ := by
  have hL : 0 < A.channels.length := List.length_pos.mpr hch
  have h8H : (8 : ℕ) ∣ H := dvd_trans (dvd_mul_right 8 _) hH
  have h8W : (8 : ℕ) ∣ W := dvd_trans (dvd_mul_right 8 _) hW
  have hu : pixelUnshuffleShape 8 ⟨N, C, H, W⟩ = some ⟨N, C * 8 ^ 2, H / 8, W / 8⟩ := by
    unfold pixelUnshuffleShape
    rw [if_pos ⟨h8H, h8W⟩]
  have hH8 : 1 ≤ H / 8 := by obtain ⟨q, hq⟩ := h8H; omega
  have hW8 : 1 ≤ W / 8 := by obtain ⟨q, hq⟩ := h8W; omega
  have hconv : conv2dShape A.cin (A.channels.getD 0 0) 3 1 1 ⟨N, C * 8 ^ 2, H / 8, W / 8⟩ =
      some ⟨N, A.channels.getD 0 0, H / 8, W / 8⟩ := by
    unfold conv2dShape convOutDim
    dsimp only
    rw [if_pos ⟨by rw [hcin]; ring, by omega, by omega, by omega⟩]
    simp only [Option.some.injEq, Shape4.mk.injEq, eq_self_iff_true, true_and]
    exact ⟨by omega, by omega⟩
  have hloop := A.extractLoop_spec N H W hk hm hH hW hH0 hW0 A.channels.length 0 (by omega)
  simp only [Nat.zero_sub, pow_zero, mul_one] at hloop
  rw [← List.range_eq_range'] at hloop
  refine ⟨(List.range A.channels.length).map fun i =>
      (⟨N, A.channels.getD i 0, H / (8 * 2 ^ i), W / (8 * 2 ^ i)⟩ : Shape4), ?_, ?_, ?_⟩
  · unfold Adapter.extract_patchShape
    rw [hu, Option.some_bind, hconv, Option.some_bind, hloop]
  · simp
  · intro i hi
    rw [List.getD_eq_getElem?_getD, List.getElem?_map, List.getElem?_range hi]
    rfl

/-- Witness for C1 at a concrete adapter `Adapter([1, 2], nums_rb=1,
cin=64)` on a `1 x 1 x 16 x 16` input. -/
theorem adapter_extract_patch_pyramid_witness :
    ∃ fs, Adapter.extract_patchShape ⟨[1, 2], 1, 64, 3, false, true⟩ ⟨1, 1, 16, 16⟩ =
        some fs ∧
      fs.length = ([1, 2] : List ℕ).length ∧
      ∀ i, i < ([1, 2] : List ℕ).length →
        fs.getD i default =
          ⟨1, ([1, 2] : List ℕ).getD i 0, 16 / (8 * 2 ^ i), 16 / (8 * 2 ^ i)⟩ :=
  adapter_extract_patch_pyramid ⟨[1, 2], 1, 64, 3, false, true⟩ 1 1 16 16
    (by decide) (by decide) (by decide) (by decide) (by decide) (by decide)
    (by decide) (by decide)

/-- Counterexample to C1 as stated: the constructor accepts
`nums_rb = 0`, and then no residual block ever runs, so on an
admissible input (`cin = 64 * C`, spatial extents divisible by
`8 * 2 ^ (len(channels) - 1)`) the second feature map keeps
`channels[0] = 1` channels at resolution `H/8 = 2`, instead of the
claimed resolution `H/16 = 1`. -/
theorem adapter_extract_patch_counterexample :
    Adapter.extract_patchShape ⟨[1, 1], 0, 64, 3, false, true⟩ ⟨1, 1, 16, 16⟩ =
      some [⟨1, 1, 2, 2⟩, ⟨1, 1, 2, 2⟩] ∧
    (Adapter.mk [1, 1] 0 64 3 false true).cin = 64 * 1 ∧
    8 * 2 ^ (([1, 1] : List ℕ).length - 1) ∣ 16 ∧
    (some [⟨1, 1, 2, 2⟩, ⟨1, 1, 2, 2⟩] : Option (List Shape4)) ≠
      some [⟨1, 1, 2, 2⟩,
        ⟨1, ([1, 1] : List ℕ).getD 1 0, 16 / (8 * 2 ^ 1), 16 / (8 * 2 ^ 1)⟩] := by
  decide
